import Mathlib

/-!
Verification development for the workers-firebase Firestore client
(reference path algebra, query builder, cursor construction, query
compilation/execution post-processing, batchGet re-ordering, and the
transaction coordinator), shallowly embedded from the TypeScript source.
-/

namespace WF

/-! ## JavaScript string helpers

`trim` embeds the source helper
`path.replace(/^\/|\/$/g, '')` (reference.ts): it removes at most one
leading and at most one trailing slash.  `jsSplit` embeds JavaScript's
`String.prototype.split` with a single-character separator: splitting the
empty string yields `[""]`, and empty segments between consecutive
separators are kept. -/

def trimList (cs : List Char) : List Char :=
  let cs := match cs with
    | '/' :: rest => rest
    | cs => cs
  match cs.getLast? with
  | some '/' => cs.dropLast
  | _ => cs

def trim (path : String) : String :=
  String.mk (trimList path.toList)

/-- JavaScript `s.split(sep)` for a one-character separator, over the
character list. -/
def jsSplitList (sep : Char) : List Char → List String
  | [] => [""]
  | c :: cs =>
    if c = sep then
      "" :: jsSplitList sep cs
    else
      match jsSplitList sep cs with
      | [] => [String.mk [c]]
      | s :: rest => (String.mk (c :: s.toList)) :: rest

/-- JavaScript `s.split(sep)` on a `String`. -/
def jsSplit (sep : Char) (s : String) : List String :=
  jsSplitList sep s.toList

/-- Character list of `array.join(sep)` for a one-character separator. -/
def joinSepList (sep : Char) : List String → List Char
  | [] => []
  | [s] => s.toList
  | s :: rest => s.toList ++ sep :: joinSepList sep rest

/-- JavaScript `array.join('/')`, as used by the `path` getters. -/
def joinSlash (segs : List String) : String :=
  String.mk (joinSepList '/' segs)

/-! ## Reference construction (reference.ts)

`Reference`'s constructor splits a string path on `/` after `trim`, or
takes a pre-split segment list as-is, then returns a `DocumentReference`
when the segment count is even and a `CollectionReference` when it is
odd.  The segment list is handed to the respective constructor's array
branch, which stores it unchanged (no filtering of empty segments
happens on this code path). -/

inductive PathInput where
  | str (s : String)
  | segs (l : List String)
deriving Repr, DecidableEq

inductive Ref where
  | doc (segments : List String)
  | coll (segments : List String)
deriving Repr, DecidableEq

/-- `new Reference(firestore, path)`. -/
def Reference (p : PathInput) : Ref :=
  let segments := match p with
    | .str s => jsSplit '/' (trim s)
    | .segs l => l
  if segments.length % 2 = 0 then .doc segments else .coll segments

/-- The `path` getter common to both reference kinds: `segments.join('/')`. -/
def refPath : Ref → String
  | .doc l => joinSlash l
  | .coll l => joinSlash l

def refIsDoc : Ref → Bool
  | .doc _ => true
  | .coll _ => false

/-- Modelled from the spec (§3 "Segments are never empty (leading/trailing
`/` trimmed; internal empty segments filtered)"): the spec's notion of a
path's normalized segments — split on `/` and drop every empty segment. -/
def specNormalizedSegments (s : String) : List String :=
  (jsSplit '/' s).filter (fun seg => seg ≠ "")

/-! Basic facts about the split/join pair. -/

theorem jsSplitList_ne_nil (sep : Char) (cs : List Char) :
    jsSplitList sep cs ≠ [] := by
  induction cs with
  | nil => simp [jsSplitList]
  | cons c cs ih =>
    by_cases h : c = sep
    · simp [jsSplitList, h]
    · simp only [jsSplitList, if_neg h]
      cases hs : jsSplitList sep cs with
      | nil => simp
      | cons s rest => simp

theorem joinSepList_jsSplitList (sep : Char) (cs : List Char) :
    joinSepList sep (jsSplitList sep cs) = cs := by
  induction cs with
  | nil => simp [jsSplitList, joinSepList]
  | cons c cs ih =>
    by_cases h : c = sep
    · subst h
      cases hs : jsSplitList c cs with
      | nil => exact absurd hs (jsSplitList_ne_nil c cs)
      | cons s rest =>
        rw [hs] at ih
        simp only [jsSplitList, if_pos rfl, hs, joinSepList]
        simpa using ih
    · simp only [jsSplitList, if_neg h]
      cases hs : jsSplitList sep cs with
      | nil => exact absurd hs (jsSplitList_ne_nil sep cs)
      | cons s rest =>
        rw [hs] at ih
        cases rest with
        | nil => simp_all [joinSepList]
        | cons t ts => simp_all [joinSepList]

/-- Join after split is the identity (string version). -/
theorem joinSlash_jsSplit (s : String) :
    joinSlash (jsSplit '/' s) = s := by
  apply String.ext
  simpa [joinSlash, jsSplit] using joinSepList_jsSplitList '/' s.toList

/-! ## Values (query.ts operands)

`JSValue` is the universe of JavaScript values a caller can hand to
`where` or the cursor methods.  `undef`/`null`/`nan` model `undefined`,
`null` and a number for which `isNaN` holds; `num` models every other
number; `docRef` models a `DocumentReference` used as an operand. -/

inductive JSValue where
  | undef
  | null
  | nan
  | num (n : Int)
  | str (s : String)
  | boolean (b : Bool)
  | docRef (segments : List String)
  | arr (elems : List JSValue)
deriving Repr

/-- Strict equality against `undefined` (`value === undefined`). -/
def JSValue.isUndef : JSValue → Bool
  | .undef => true
  | _ => false

/-- `encodeValue` from serializer.ts; that file is not among the provided
sources.  Modelled from the spec: §4.2 says each value is converted to a
wire representation tagged with its type.  The claims settled here only
need that a filter or cursor carries the encoding of the given operand,
so the encoding is modelled as an injective wrapper. -/
structure EncodedValue where
  value : JSValue
deriving Repr

def encodeValue (v : JSValue) : EncodedValue := ⟨v⟩

/-! ## Operators and filters (query.ts) -/

inductive WhereFilterOp where
  | lt | le | eq | ne | gt | ge
  | arrayContains | opIn | notIn | arrayContainsAny
deriving Repr, DecidableEq

inductive FieldFilterOperator where
  | LESS_THAN | LESS_THAN_OR_EQUAL | EQUAL | NOT_EQUAL
  | GREATER_THAN | GREATER_THAN_OR_EQUAL
  | ARRAY_CONTAINS | IN | NOT_IN | ARRAY_CONTAINS_ANY
deriving Repr, DecidableEq

/-- The `comparisonOperators` lookup table. -/
def comparisonOperators : WhereFilterOp → FieldFilterOperator
  | .lt => .LESS_THAN
  | .le => .LESS_THAN_OR_EQUAL
  | .eq => .EQUAL
  | .ne => .NOT_EQUAL
  | .gt => .GREATER_THAN
  | .ge => .GREATER_THAN_OR_EQUAL
  | .arrayContains => .ARRAY_CONTAINS
  | .opIn => .IN
  | .notIn => .NOT_IN
  | .arrayContainsAny => .ARRAY_CONTAINS_ANY

inductive UnaryFilterOperator where
  | IS_NULL | IS_NAN | IS_NOT_NULL | IS_NOT_NAN
deriving Repr, DecidableEq

/-- Fuses the source's guard
`(opStr === '==' || opStr === '!=') && (value === null || typeof value === 'number' && isNaN(value))`
with the `unaryOperators[opStr][value]` table lookup: `some` exactly when
the guard holds, carrying the table entry. -/
def unaryOperators : WhereFilterOp → JSValue → Option UnaryFilterOperator
  | .eq, .null => some .IS_NULL
  | .eq, .nan => some .IS_NAN
  | .ne, .null => some .IS_NOT_NULL
  | .ne, .nan => some .IS_NOT_NAN
  | _, _ => none

/-- The `inequalityFilters` set. -/
def inequalityFilters : List FieldFilterOperator :=
  [.GREATER_THAN, .GREATER_THAN_OR_EQUAL, .LESS_THAN, .LESS_THAN_OR_EQUAL]

structure FieldReference where
  fieldPath : String
deriving Repr, DecidableEq

inductive Filter where
  | fieldFilter (field : FieldReference) (op : FieldFilterOperator) (value : EncodedValue)
  | unaryFilter (field : FieldReference) (op : UnaryFilterOperator)
  | compositeFilter (op : String) (filters : List Filter)
deriving Repr

inductive Direction where
  | ASCENDING | DESCENDING
deriving Repr, DecidableEq

inductive OrderByDirection where
  | asc | desc
deriving Repr, DecidableEq

/-- The `directionOperators` lookup table; an omitted or unknown direction
string maps to `undefined`. -/
def directionOperators : Option OrderByDirection → Option Direction
  | some .asc => some .ASCENDING
  | some .desc => some .DESCENDING
  | none => none

structure Order where
  field : FieldReference
  direction : Option Direction
deriving Repr, DecidableEq

structure Cursor where
  values : List EncodedValue
  before : Bool
deriving Repr

/-- `FieldPath.documentId`. -/
def FieldPath.documentId : String := "__name__"

/-! ## Query state (query.ts `QueryOptions`)

`reverse?: true` is modelled as a `Bool`; `limit`/`offset` are JavaScript
numbers, modelled as `Int`. -/

structure QueryOptions where
  collectionId : String
  filters : List Filter
  orderBy : List Order
  select : Option (List FieldReference) := none
  limit : Option Int := none
  offset : Option Int := none
  startAt : Option Cursor := none
  endAt : Option Cursor := none
  reverse : Bool := false
deriving Repr, Inhabited

/-- The query state `CollectionReference`'s constructor passes to `super`:
`{ from: [{collectionId: segments[segments.length - 1]}], filters: [], orderBy: [] }`. -/
def collectionQuery (segments : List String) : QueryOptions :=
  { collectionId := segments.getLastD "", filters := [], orderBy := [] }

/-- `CollectionReference.doc(path?)`: substitutes a generated id for a
falsy path, then builds a `DocumentReference` from
`segments.concat(trim(path).split('/'))`; the `DocumentReference`
constructor's array branch keeps the segments as given and throws when
their count is odd. -/
def docFromCollection (collSegments : List String) (autoId : String)
    (path : String) : Except String (List String) :=
  let path := if path = "" then autoId else path
  let segments := collSegments ++ jsSplit '/' (trim path)
  if segments.length % 2 ≠ 0 then
    .error ("A document reference must have an even number of segments, received " ++ joinSlash segments)
  else
    .ok segments

/-- The document-id operand conversion at the top of `Query.where`:
a string becomes a document reference relative to the anchor collection;
an array whose *first* element is a string has *every* element sent
through `this.ref.doc` (a non-string element then throws a `TypeError`
inside `trim`, modelled as an error). -/
def resolveDocumentId (anchor : List String) (autoId : String) :
    JSValue → Except String JSValue
  | .str s => (docFromCollection anchor autoId s).map JSValue.docRef
  | .arr elems =>
    match elems.head? with
    | some (.str _) =>
      (elems.mapM (fun e =>
        match e with
        | JSValue.str s => (docFromCollection anchor autoId s).map JSValue.docRef
        | _ => Except.error "TypeError: path.replace is not a function")).map JSValue.arr
    | _ => .ok (.arr elems)
  | v => .ok v

/-- `Query.where(fieldPath, opStr, value)`; `anchor`/`autoId` stand for
`this.ref`'s segments and the id generator consulted by `this.ref.doc('')`. -/
def whereQ (anchor : List String) (autoId : String) (q : QueryOptions)
    (fieldPath : String) (opStr : WhereFilterOp) (value : JSValue) :
    Except String QueryOptions :=
  if value.isUndef then
    .error "Where value cannot be undefined"
  else
    match (if fieldPath = FieldPath.documentId then resolveDocumentId anchor autoId value
           else .ok value) with
    | .error e => .error e
    | .ok value =>
      let filter : Filter :=
        match unaryOperators opStr value with
        | some op => .unaryFilter ⟨fieldPath⟩ op
        | none => .fieldFilter ⟨fieldPath⟩ (comparisonOperators opStr) (encodeValue value)
      .ok { q with filters := q.filters ++ [filter] }

/-- `Query.select(...fieldPaths)`: an empty list defaults to the
document-id field. -/
def selectQ (q : QueryOptions) (fieldPaths : List String) : QueryOptions :=
  let fieldPaths := if fieldPaths.isEmpty then [FieldPath.documentId] else fieldPaths
  { q with select := some (fieldPaths.map (fun fp => ⟨fp⟩)) }

/-- `Query.orderBy(fieldPath, directionStr?)`. -/
def orderByQ (q : QueryOptions) (fieldPath : String)
    (directionStr : Option OrderByDirection) : QueryOptions :=
  { q with orderBy := q.orderBy ++ [⟨⟨fieldPath⟩, directionOperators directionStr⟩] }

/-- `Query.limit(limit)`: the destructuring `const { reverse, ...q }`
drops any pending reverse flag. -/
def limitQ (q : QueryOptions) (limit : Int) : QueryOptions :=
  { q with limit := some limit, reverse := false }

/-- `Query.limitToLast(limit)`: sets the cap and the reverse flag. -/
def limitToLastQ (q : QueryOptions) (limit : Int) : QueryOptions :=
  { q with limit := some limit, reverse := true }

/-- `Query.offset(offset)`. -/
def offsetQ (q : QueryOptions) (offset : Int) : QueryOptions :=
  { q with offset := some offset }

/-! ## Implicit field orders and cursor construction (query.ts) -/

/-- JavaScript strict equality `o.field === FieldPath.documentId`
(`getFieldOrders`) and `fieldOrders[i].field === FieldPath.documentId`
(`createCursor`): the left operand is the `field` *object* and the right
operand the *string* `'__name__'`; `===` between an object and a string
is always `false`. -/
def fieldRefEqDocumentIdString (_field : FieldReference) : Bool := false

/-- `fieldFilter.fieldFilter?.op`: `undefined` for unary and composite
filters. -/
def filterFieldFilterOp : Filter → Option FieldFilterOperator
  | .fieldFilter _ op _ => some op
  | _ => none

/-- `getFieldOrders(query)`: starts from the explicit `orderBy` clauses;
when there are none, pushes the first inequality filter's field (then
breaks); finally appends the document-id field unless the (always-false)
object-vs-string presence test fires. -/
def getFieldOrders (q : QueryOptions) : List Order :=
  let fieldOrders := q.orderBy
  let fieldOrders :=
    if fieldOrders.isEmpty then
      match q.filters.find? (fun f =>
        match filterFieldFilterOp f with
        | some op => op ∈ inequalityFilters
        | none => false) with
      | some (.fieldFilter field _ _) => [⟨field, none⟩]
      | _ => []
    else fieldOrders
  if fieldOrders.any (fun o => fieldRefEqDocumentIdString o.field) then fieldOrders
  else fieldOrders ++ [⟨⟨FieldPath.documentId⟩, none⟩]

/-- The data of a `DocumentSnapshot` consumed by cursor extraction.
document.ts is not among the provided sources; modelled from the spec
(§3): `get` performs field access by path returning the stored value or
`undefined` (here: an association-list lookup), and `ref` is the
snapshot's document reference.  Decoded field values are never
`undefined`. -/
structure SnapshotData where
  refSegments : List String
  fields : List (String × JSValue)
deriving Repr

/-- `documentSnapshot.get(fieldPath)`; `none` models `undefined`. -/
def snapGet (s : SnapshotData) (fieldPath : String) : Option JSValue :=
  (s.fields.find? (fun p => p.1 = fieldPath)).map (fun p => p.2)

/-- `extractFieldValues(documentSnapshot, fieldOrders)`: the document-id
order contributes `documentSnapshot.ref` (this comparison is
string-vs-string and behaves normally); a missing field throws. -/
def extractFieldValues (s : SnapshotData) : List Order → Except String (List JSValue)
  | [] => .ok []
  | fieldOrder :: rest =>
    let hd : Except String JSValue :=
      if fieldOrder.field.fieldPath = FieldPath.documentId then
        .ok (.docRef s.refSegments)
      else
        match snapGet s fieldOrder.field.fieldPath with
        | none =>
          .error ("Field is missing in the provided DocumentSnapshot. " ++
            "Please provide a document that contains values for all specified " ++
            "orderBy() and where() constraints.")
        | some v => .ok v
    match hd with
    | .error e => .error e
    | .ok v =>
      match extractFieldValues s rest with
      | .error e => .error e
      | .ok vs => .ok (v :: vs)

/-- The argument list of a cursor method: either a single
`DocumentSnapshot` or a list of literal cursor values. -/
inductive CursorInput where
  | snapshot (s : SnapshotData)
  | values (vs : List JSValue)

/-- The `for` loop of `createCursor`, over `fieldValues` paired with the
corresponding `fieldOrders[i]`.  The string-to-reference conversion is
guarded by the always-false object-vs-string equality, so it is dead
code; an `undefined` value throws; every surviving value is encoded. -/
def cursorLoop (anchor : List String) (autoId : String) :
    List (JSValue × Order) → Except String (List EncodedValue)
  | [] => .ok []
  | (fieldValue, ord) :: rest =>
    match (if fieldRefEqDocumentIdString ord.field then
             match fieldValue with
             | .str s => (docFromCollection anchor autoId s).map JSValue.docRef
             | v => .ok v
           else .ok fieldValue) with
    | .error e => .error e
    | .ok fieldValue =>
      if fieldValue.isUndef then
        .error ("A cursor value must be provided for the " ++ ord.field.fieldPath ++ " field.")
      else
        match cursorLoop anchor autoId rest with
        | .error e => .error e
        | .ok rest' => .ok (encodeValue fieldValue :: rest')

/-- `Query[createCursorSymbol](cursorValuesOrDocumentSnapshot, before)`. -/
def createCursor (anchor : List String) (autoId : String) (q : QueryOptions)
    (input : CursorInput) (before : Bool) : Except String Cursor :=
  let fieldOrders := getFieldOrders q
  match (match input with
         | .snapshot s => extractFieldValues s fieldOrders
         | .values vs => .ok vs) with
  | .error e => .error e
  | .ok fieldValues =>
    if fieldValues.length > fieldOrders.length then
      .error ("Too many cursor values specified. The specified " ++
        "values must match the orderBy() constraints of the query.")
    else
      match cursorLoop anchor autoId (fieldValues.zip fieldOrders) with
      | .error e => .error e
      | .ok values => .ok { values := values, before := before }

/-- `Query.startAt(...)`: inclusive start cursor. -/
def startAtQ (anchor : List String) (autoId : String) (q : QueryOptions)
    (input : CursorInput) : Except String QueryOptions :=
  (createCursor anchor autoId q input true).map (fun c => { q with startAt := some c })

/-- `Query.startAfter(...)`: exclusive start cursor. -/
def startAfterQ (anchor : List String) (autoId : String) (q : QueryOptions)
    (input : CursorInput) : Except String QueryOptions :=
  (createCursor anchor autoId q input false).map (fun c => { q with startAt := some c })

/-- `Query.endAt(...)`: inclusive end cursor. -/
def endAtQ (anchor : List String) (autoId : String) (q : QueryOptions)
    (input : CursorInput) : Except String QueryOptions :=
  (createCursor anchor autoId q input true).map (fun c => { q with endAt := some c })

/-- `Query.endAfter(...)`: exclusive end cursor. -/
def endAfterQ (anchor : List String) (autoId : String) (q : QueryOptions)
    (input : CursorInput) : Except String QueryOptions :=
  (createCursor anchor autoId q input false).map (fun c => { q with endAt := some c })

/-! ## Query compilation and response post-processing (`Query.get`) -/

/-- The structured query sent on the wire: the destructuring
`const { reverse, filters, ...query } = this[querySymbol]` strips the
client-only fields, and a `where` clause is attached. -/
structure WireQuery where
  collectionId : String
  whereFilter : Option Filter
  orderBy : List Order
  select : Option (List FieldReference)
  limit : Option Int
  offset : Option Int
  startAt : Option Cursor
  endAt : Option Cursor
deriving Repr

/-- `direction === 'DESCENDING' ? 'ASCENDING' : 'DESCENDING'`: anything
other than `'DESCENDING'` (including an unset direction) flips to
`'DESCENDING'`. -/
def flipDirection (direction : Option Direction) : Option Direction :=
  if direction = some .DESCENDING then some .ASCENDING else some .DESCENDING

/-- The compilation stage of `Query.get()` up to the network request:
filter combination, the limitToLast `orderBy` requirement, direction
flipping and the cursor swap.  The two cursor assignments mirror the
source's textual order: the second reads the `startAt` *already
overwritten* by the first. -/
def compileQuery (q : QueryOptions) : Except String WireQuery :=
  let whereFilter : Option Filter :=
    if q.filters.length > 1 then some (.compositeFilter "AND" q.filters)
    else q.filters.head?
  if q.reverse then
    if q.orderBy.isEmpty then
      .error "limitToLast() queries require specifying at least one orderBy() clause."
    else
      let orderBy := q.orderBy.map (fun o => ⟨o.field, flipDirection o.direction⟩)
      let startAt := q.endAt.map (fun c => Cursor.mk c.values (!c.before))
      let endAt := startAt.map (fun c => Cursor.mk c.values (!c.before))
      .ok ⟨q.collectionId, whereFilter, orderBy, q.select, q.limit, q.offset, startAt, endAt⟩
  else
    .ok ⟨q.collectionId, whereFilter, q.orderBy, q.select, q.limit, q.offset, q.startAt, q.endAt⟩

/-- One element of the `runQuery` response array. -/
structure WireDocument where
  name : String
  payload : List (String × EncodedValue) := []
deriving Repr

structure RunQueryResult where
  document : Option WireDocument := none
  readTime : String := ""
  skippedResults : Option Int := none
  errorMessage : Option String := none
deriving Repr

/-- The response post-processing of `Query.get()`: reading
`response[0].readTime` on an empty array throws; a per-result error is
rethrown; a truthy leading `skippedResults` (a nonzero number) drops the
first element; under `reverse` the sequence is reversed; document
results are materialized in order (here as `(document, readTime)` pairs
— the snapshot wrapper applies the same per-element reference
resolution on every path, so document/readTime equality determines
snapshot equality). -/
def processResponse (reverse : Bool) (response : List RunQueryResult) :
    Except String (List (WireDocument × String)) :=
  match response with
  | [] => .error "TypeError: Cannot read properties of undefined"
  | r0 :: _ =>
    match r0.errorMessage with
    | some msg => .error msg
    | none =>
      let response := if r0.skippedResults.getD 0 ≠ 0 then response.tail else response
      let response := if reverse then response.reverse else response
      .ok (response.filterMap (fun e => e.document.map (fun d => (d, e.readTime))))

/-- `Query.get()` against a server modelled as a function from the wire
query to the response array (the same wire query always receives the
same response within one comparison). -/
def runQueryWith (server : WireQuery → List RunQueryResult) (q : QueryOptions) :
    Except String (List (WireDocument × String)) :=
  match compileQuery q with
  | .error e => .error e
  | .ok wq => processResponse q.reverse (server wq)

/-! ## Firestore façade state and the transaction coordinator
(firestore.ts) -/

/-- One buffered `api.Write`; its payload is opaque to the claims settled
here. -/
structure Write where
  payload : String := ""
deriving Repr, DecidableEq

/-- The symbol-keyed per-instance fields `[transactionSymbol]` and
`[writesSymbol]`; both start as `undefined`. -/
structure FirestoreState where
  transaction : Option String := none
  writes : Option (List Write) := none
deriving Repr, DecidableEq

/-- Result of an awaited JavaScript computation: a value or a thrown
error. -/
inductive Outcome (α : Type) where
  | ok (value : α)
  | thrown (message : String)
deriving Repr, DecidableEq

/-- The `:commit` request body of `runTransaction`:
`{ writes: this[writesSymbol], transaction: this[transactionSymbol] }`. -/
structure CommitRequest where
  writes : Option (List Write)
  transaction : Option String
deriving Repr, DecidableEq

def commitRequest (st : FirestoreState) : CommitRequest :=
  ⟨st.writes, st.transaction⟩

/-- `Firestore.runTransaction(updateFunction)`: stores the server-issued
token and an empty writes buffer, awaits the body (an arbitrary
state-transforming computation against this store), then commits and
clears both fields.  There is no `try`/`finally`: an exception from the
body — or from the commit request, whose outcome is the
`commitOutcome` parameter — propagates without the two fields being
cleared.  Returns the final state, the outcome, and the commit request
sent (if the commit was reached). -/
def runTransaction (st : FirestoreState) (serverToken : String)
    (body : FirestoreState → FirestoreState × Outcome Unit)
    (commitOutcome : Outcome Unit) :
    FirestoreState × Outcome Unit × Option CommitRequest :=
  match body { st with transaction := some serverToken, writes := some [] } with
  | (st2, .thrown e) => (st2, .thrown e, none)
  | (st2, .ok _) =>
    match commitOutcome with
    | .thrown e => (st2, .thrown e, some (commitRequest st2))
    | .ok _ => ({ st2 with transaction := none, writes := none }, .ok (), some (commitRequest st2))

/-! ## batchGet (firestore.ts) -/

/-- A document reference as requested from `batchGet`. -/
structure DocRef where
  segments : List String
deriving Repr, DecidableEq

/-- The `qualifiedPath` getter:
`` `${this.firestore.basePath}/${this.segments.join('/')}` ``. -/
def qualifiedPath (basePath : String) (r : DocRef) : String :=
  basePath ++ "/" ++ joinSlash r.segments

/-- The `:batchGet` request body:
`{ documents, mask, ...consistency, transaction: this[transactionSymbol] }` —
the trailing `transaction:` entry overrides any transaction carried in
the consistency options. -/
structure BatchGetRequest where
  documents : List String
  mask : Option (List String)
  transaction : Option String
deriving Repr, DecidableEq

def batchGetRequest (basePath : String) (st : FirestoreState)
    (refs : List DocRef) (fields : Option (List String))
    (_consistencyTransaction : Option String) : BatchGetRequest :=
  { documents := refs.map (qualifiedPath basePath)
    mask := fields
    transaction := st.transaction }

/-- The `runQuery` request body sent by `Query.get()`:
`{ structuredQuery: query, transaction: this.ref.firestore[transactionSymbol] }`. -/
structure RunQueryRequest where
  structuredQuery : WireQuery
  transaction : Option String
deriving Repr

def runQueryRequest (st : FirestoreState) (q : QueryOptions) :
    Except String RunQueryRequest :=
  (compileQuery q).map (fun wq => ⟨wq, st.transaction⟩)

/-- One element of the `:batchGet` response array. -/
structure BatchGetResultWire where
  missing : Option String := none
  found : Option WireDocument := none
  readTime : String := ""
deriving Repr

/-- `result.missing || result.found.name`: falls through to `found.name`
when `missing` is absent *or* the empty string (falsy); reading
`found.name` when `found` is absent is a `TypeError`, modelled as
`none`. -/
def batchGetKey (r : BatchGetResultWire) : Option String :=
  match r.missing with
  | some m => if m ≠ "" then some m else r.found.map (fun d => d.name)
  | none => r.found.map (fun d => d.name)

/-- `docMap.get(name)` after the `forEach` of `Map.set` calls: a later
`set` for the same key overrides an earlier one, so entries later in the
list take precedence. -/
def mapGet : List (String × BatchGetResultWire) → String → Option BatchGetResultWire
  | [], _ => none
  | p :: rest, key =>
    match mapGet rest key with
    | some r => some r
    | none => if p.1 = key then some p.2 else none

/-- What `new DocumentSnapshot(refs[i], doc, result.readTime)` receives. -/
structure BatchSnapshot where
  refSegments : List String
  doc : Option WireDocument
  readTime : String
deriving Repr

/-- `result.missing ? null : result.found` (truthiness: an empty-string
`missing` falls through to `found`). -/
def snapDoc (r : BatchGetResultWire) : Option WireDocument :=
  match r.missing with
  | some m => if m ≠ "" then none else r.found
  | none => r.found

def mkBatchSnapshot (ref : DocRef) (r : BatchGetResultWire) : BatchSnapshot :=
  ⟨ref.segments, snapDoc r, r.readTime⟩

/-- The `forEach` building the `docMap`: fails (JS `TypeError`) as soon
as a response entry's key is unreadable. -/
def batchGetPairs : List BatchGetResultWire → Option (List (String × BatchGetResultWire))
  | [] => some []
  | r :: rest =>
    match batchGetKey r with
    | none => none
    | some k => (batchGetPairs rest).map (fun ps => (k, r) :: ps)

/-- The `request.documents.map((name, i) => ...)` walk in request order. -/
def batchGetWalk (basePath : String) (pairs : List (String × BatchGetResultWire)) :
    List DocRef → Option (List BatchSnapshot)
  | [] => some []
  | ref :: rest =>
    match mapGet pairs (qualifiedPath basePath ref) with
    | none => none
    | some r => (batchGetWalk basePath pairs rest).map (fun ss => mkBatchSnapshot ref r :: ss)

/-- The result-assembly stage of `Firestore.batchGet`: build the
name-keyed map over the response, then walk `request.documents` in
request order looking each name up.  `none` models the `TypeError`
raised when a key is unreadable or a requested name is absent from the
map. -/
def batchGetResults (basePath : String) (refs : List DocRef)
    (response : List BatchGetResultWire) : Option (List BatchSnapshot) :=
  match batchGetPairs response with
  | none => none
  | some pairs => batchGetWalk basePath pairs refs

/-! ## Builder-method allocation model (query.ts)

Every builder method of `Query` executes
`new Query(this.ref, { ...this[querySymbol], ... })`: it reads this
query's state, computes a fresh options object by spread-copy, and
allocates a new `Query` object; a thrown validation error allocates
nothing.  To state that the receiver is left untouched, object identity
is made explicit: a heap of query-state cells, with each builder call
reading cell `i` and appending a fresh cell. -/

inductive BuilderCall where
  | whereCall (fieldPath : String) (opStr : WhereFilterOp) (value : JSValue)
  | selectCall (fieldPaths : List String)
  | orderByCall (fieldPath : String) (directionStr : Option OrderByDirection)
  | limitCall (n : Int)
  | limitToLastCall (n : Int)
  | offsetCall (n : Int)
  | startAtCall (input : CursorInput)
  | startAfterCall (input : CursorInput)
  | endAtCall (input : CursorInput)
  | endAfterCall (input : CursorInput)

/-- The new query state a builder method computes from the receiver's
state (the options object passed to `new Query`). -/
def builderState (anchor : List String) (autoId : String) (q : QueryOptions) :
    BuilderCall → Except String QueryOptions
  | .whereCall f op v => whereQ anchor autoId q f op v
  | .selectCall fps => pure (selectQ q fps)
  | .orderByCall f d => pure (orderByQ q f d)
  | .limitCall n => pure (limitQ q n)
  | .limitToLastCall n => pure (limitToLastQ q n)
  | .offsetCall n => pure (offsetQ q n)
  | .startAtCall input => startAtQ anchor autoId q input
  | .startAfterCall input => startAfterQ anchor autoId q input
  | .endAtCall input => endAtQ anchor autoId q input
  | .endAfterCall input => endAfterQ anchor autoId q input

structure QueryHeap where
  cells : List QueryOptions

/-- A builder call on the query object at cell `i`: computes the derived
state and allocates it as a fresh cell, returning the new object's
index.  No existing cell is written. -/
def applyBuilder (anchor : List String) (autoId : String) (h : QueryHeap)
    (i : Nat) (call : BuilderCall) : Except String (QueryHeap × Nat) :=
  (builderState anchor autoId (h.cells.getD i default) call).map
    (fun q' => (⟨h.cells ++ [q']⟩, h.cells.length))

/-! # Claims -/

/-- C1: the claim says that after `runTransaction` resolves — commit
success or body throw — the store's transaction token and pending-writes
buffer are reset to none, the body's error still propagating.  The code
has no `try`/`finally`: with a body that throws, the error does
propagate, but the store is left with the freshly begun token and the
empty writes buffer still attached. -/
theorem runTransaction_bodyThrow_leaves_stale_state :
    runTransaction {} "tok1" (fun s => (s, .thrown "boom")) (.ok ()) =
      (⟨some "tok1", some []⟩, .thrown "boom", none) := by
  rfl

/-- C2: the claim says that on a reverse (limitToLast) execution the
compiled start cursor is the original end cursor with negated flag and
the compiled end cursor the original start cursor with negated flag.  On
a reverse query carrying only a start cursor, the code instead drops the
cursor entirely: the first assignment overwrites `startAt` with the
(absent) end cursor, and the second derives `endAt` from that already
overwritten field. -/
theorem compileQuery_reverse_drops_startAt :
    compileQuery
      { collectionId := "users", filters := [],
        orderBy := [⟨⟨"x"⟩, some .ASCENDING⟩], limit := some 3,
        startAt := some ⟨[encodeValue (.str "a")], true⟩, reverse := true } =
      .ok ⟨"users", none, [⟨⟨"x"⟩, some .DESCENDING⟩], none, some 3, none, none, none⟩ := by
  rfl

/-- C6: the claim says the document-id field is appended as the final
tiebreaker only when not already present among the ordering clauses.
The presence test compares the `field` object against the string
`'__name__'` with `===`, which is always false, so a query that already
orders by `__name__` gets a duplicate document-id clause appended. -/
theorem getFieldOrders_duplicates_documentId :
    getFieldOrders
      { collectionId := "users", filters := [],
        orderBy := [⟨⟨"__name__"⟩, some .ASCENDING⟩] } =
      [⟨⟨"__name__"⟩, some .ASCENDING⟩, ⟨⟨"__name__"⟩, none⟩] := by
  rfl

/-- C9 (amended): constructing a `Reference` yields a document reference
iff the raw `/`-split segment count — after removing a single leading
and a single trailing slash, counting empty segments — is even (for a
pre-split list, iff its length is even), and `path` reconstructs exactly
that trimmed input (resp. the joined list), with empty segments
preserved rather than removed. -/
theorem Reference_parity_and_path (s : String) (l : List String) :
    (refIsDoc (Reference (.str s)) = true ↔ (jsSplit '/' (trim s)).length % 2 = 0) ∧
    refPath (Reference (.str s)) = trim s ∧
    (refIsDoc (Reference (.segs l)) = true ↔ l.length % 2 = 0) ∧
    refPath (Reference (.segs l)) = joinSlash l := by
  refine ⟨?_, ?_, ?_, ?_⟩
  · unfold Reference refIsDoc
    by_cases h : (jsSplit '/' (trim s)).length % 2 = 0 <;> simp [h]
  · unfold Reference refPath
    by_cases h : (jsSplit '/' (trim s)).length % 2 = 0 <;>
      simp [h, joinSlash_jsSplit]
  · unfold Reference refIsDoc
    by_cases h : l.length % 2 = 0 <;> simp [h]
  · unfold Reference refPath
    by_cases h : l.length % 2 = 0 <;> simp [h]

/-- C9 counterexample: at the path `"a//b/c"` the spec-normalized
segment list is `["a","b","c"]` — odd, so the claim predicts a
collection reference with path `"a/b/c"` — but the code counts the raw
segments (4, even), builds a document reference, and its `path` keeps
the empty segment. -/
theorem Reference_counterexample_empty_segment :
    refIsDoc (Reference (.str "a//b/c")) = true ∧
    specNormalizedSegments "a//b/c" = ["a", "b", "c"] ∧
    refPath (Reference (.str "a//b/c")) = "a//b/c" ∧
    refPath (Reference (.str "a//b/c")) ≠ joinSlash (specNormalizedSegments "a//b/c") := by
  refine ⟨by decide, by decide, by decide, by decide⟩

/-- Response post-processing under the reverse flag equals the plain
post-processing followed by reversing the materialized sequence. -/
theorem processResponse_reverse_eq (resp : List RunQueryResult) :
    processResponse true resp = (processResponse false resp).map List.reverse := by
  cases resp with
  | nil => rfl
  | cons r0 rest =>
    cases h : r0.errorMessage with
    | some msg => simp [processResponse, h, Except.map]
    | none =>
      simp [processResponse, h, Except.map, List.filterMap_reverse]

/-- C4: from a base query state with no ordering clauses and no cursors,
executing `orderBy(x,'asc').limitToLast(n)` returns the same documents
in the same order as executing `orderBy(x,'desc').limit(n)` and
reversing the result sequence, against any server response function:
both compile to the same wire query, and the reverse flag's
post-processing is exactly a reversal. -/
theorem limitToLast_equals_reversed_limit
    (q0 : QueryOptions) (x : String) (n : Int)
    (server : WireQuery → List RunQueryResult)
    (hOrd : q0.orderBy = []) (hStart : q0.startAt = none) (hEnd : q0.endAt = none) :
    runQueryWith server (limitToLastQ (orderByQ q0 x (some .asc)) n) =
      (runQueryWith server (limitQ (orderByQ q0 x (some .desc)) n)).map List.reverse := by
  have hc : compileQuery (limitToLastQ (orderByQ q0 x (some .asc)) n) =
      compileQuery (limitQ (orderByQ q0 x (some .desc)) n) := by
    simp [compileQuery, limitToLastQ, limitQ, orderByQ, hOrd, hStart, hEnd,
      directionOperators, flipDirection]
  obtain ⟨w, hw⟩ : ∃ w, compileQuery (limitQ (orderByQ q0 x (some .desc)) n) = .ok w :=
    ⟨_, rfl⟩
  simp only [runQueryWith, hc, hw]
  exact processResponse_reverse_eq (server w)

/-- C4 witness: the equivalence at a concrete base query, field, cap and
server response. -/
theorem limitToLast_equals_reversed_limit_witness :
    runQueryWith
        (fun _ => [⟨some ⟨"u/d1", []⟩, "t1", none, none⟩, ⟨some ⟨"u/d2", []⟩, "t2", none, none⟩])
        (limitToLastQ (orderByQ (collectionQuery ["users"]) "x" (some .asc)) 2) =
      (runQueryWith
        (fun _ => [⟨some ⟨"u/d1", []⟩, "t1", none, none⟩, ⟨some ⟨"u/d2", []⟩, "t2", none, none⟩])
        (limitQ (orderByQ (collectionQuery ["users"]) "x" (some .desc)) 2)).map List.reverse :=
  limitToLast_equals_reversed_limit (collectionQuery ["users"]) "x" 2 _ rfl rfl rfl

/-- C3: while a transaction token is held, every read request and the
final commit carry that token: `batchGet` and `Query.get` read the live
`[transactionSymbol]` field into their request bodies, and
`runTransaction`'s commit is issued from the post-body state, whose
token is unchanged by any body that does not itself tamper with the
token field. -/
theorem requests_carry_transaction_token
    (st : FirestoreState) (tok : String) (h : st.transaction = some tok)
    (basePath : String) (refs : List DocRef) (fields : Option (List String))
    (consistency : Option String) (q : QueryOptions) (req : RunQueryRequest)
    (hq : runQueryRequest st q = .ok req)
    (st0 : FirestoreState)
    (body : FirestoreState → FirestoreState × Outcome Unit)
    (hbody : ∀ s, ((body s).1).transaction = s.transaction)
    (commitOutcome : Outcome Unit) (creq : CommitRequest)
    (hc : (runTransaction st0 tok body commitOutcome).2.2 = some creq) :
    (batchGetRequest basePath st refs fields consistency).transaction = some tok ∧
    req.transaction = some tok ∧
    creq.transaction = some tok := by
  refine ⟨h, ?_, ?_⟩
  · unfold runQueryRequest at hq
    cases hcq : compileQuery q with
    | error e => rw [hcq] at hq; exact absurd hq (by simp [Except.map])
    | ok w =>
      rw [hcq] at hq
      simp only [Except.map, Except.ok.injEq] at hq
      rw [← hq]
      exact h
  · unfold runTransaction at hc
    rcases hb : body { st0 with transaction := some tok, writes := some [] } with ⟨st2, outc⟩
    have hst2 : st2.transaction = some tok := by
      have := hbody { st0 with transaction := some tok, writes := some [] }
      rw [hb] at this
      exact this
    rw [hb] at hc
    cases outc with
    | thrown e => exact absurd hc (by simp)
    | ok u =>
      cases commitOutcome with
      | thrown e =>
        simp only [Option.some.injEq] at hc
        rw [← hc]
        exact hst2
      | ok u' =>
        simp only [Option.some.injEq] at hc
        rw [← hc]
        exact hst2

/-- C3 witness: a held token `"t"` appears on a concrete batchGet
request, a concrete compiled query request, and the commit request of a
concrete transaction run. -/
theorem requests_carry_transaction_token_witness :
    (batchGetRequest "projects/p/databases/d/documents"
        ⟨some "t", some []⟩ [⟨["users", "u1"]⟩] none none).transaction = some "t" ∧
    (RunQueryRequest.mk ⟨"users", none, [], none, none, none, none, none⟩ (some "t")).transaction = some "t" ∧
    (CommitRequest.mk (some []) (some "t")).transaction = some "t" :=
  requests_carry_transaction_token
    ⟨some "t", some []⟩ "t" rfl
    "projects/p/databases/d/documents" [⟨["users", "u1"]⟩] none none
    (collectionQuery ["users"]) ⟨⟨"users", none, [], none, none, none, none, none⟩, some "t"⟩ rfl
    {} (fun s => (s, .ok ())) (fun _ => rfl) (.ok ())
    ⟨some [], some "t"⟩ rfl

/-- C10: every builder-method call on the query object at cell `i` that
returns allocates the derived state as a fresh cell: the pre-existing
cells — in particular the receiver's — are unchanged, and the returned
object is a new one, distinct from the receiver. -/
theorem builder_returns_fresh_object
    (anchor : List String) (autoId : String) (h : QueryHeap) (i : Nat)
    (call : BuilderCall) (res : QueryHeap × Nat)
    (hi : i < h.cells.length)
    (hres : applyBuilder anchor autoId h i call = .ok res) :
    res.1.cells.take h.cells.length = h.cells ∧
    res.1.cells.length = h.cells.length + 1 ∧
    res.2 = h.cells.length ∧ res.2 ≠ i := by
  unfold applyBuilder at hres
  cases hb : builderState anchor autoId (h.cells.getD i default) call with
  | error e => rw [hb] at hres; exact absurd hres (by simp [Except.map])
  | ok q' =>
    rw [hb] at hres
    simp only [Except.map, Except.ok.injEq] at hres
    rw [← hres]
    refine ⟨?_, by simp, rfl, (Nat.ne_of_lt hi).symm⟩
    exact List.take_left h.cells [q']

/-- C10 witness: a concrete `limit` call on the sole query object of a
one-cell heap leaves that cell intact and returns the fresh index 1. -/
theorem builder_returns_fresh_object_witness :
    (QueryHeap.mk [collectionQuery ["c"], limitQ (collectionQuery ["c"]) 5]).cells.take 1 =
        [collectionQuery ["c"]] ∧
    (QueryHeap.mk [collectionQuery ["c"], limitQ (collectionQuery ["c"]) 5]).cells.length = 1 + 1 ∧
    (1 : Nat) = 1 ∧ (1 : Nat) ≠ 0 :=
  builder_returns_fresh_object [] "id" ⟨[collectionQuery ["c"]]⟩ 0 (.limitCall 5)
    (⟨[collectionQuery ["c"], limitQ (collectionQuery ["c"]) 5]⟩, 1) (by decide) rfl

theorem unaryOperators_eq_none (op : WhereFilterOp) (v : JSValue)
    (h : (op = .eq ∨ op = .ne) → v ≠ .null ∧ v ≠ .nan) :
    unaryOperators op v = none := by
  cases op <;> cases v <;> simp_all [unaryOperators]

/-- C8: `where(f,'==',null)` compiles to a unary `IS_NULL` filter for
every field path `f`; in general `==`/`!=` against `null`/`NaN` compile
to the matching unary filter, and every other operator/value
combination (with a defined, resolvable operand) compiles to a field
filter carrying the encoded — possibly document-id-resolved —
operand. -/
theorem where_unary_vs_field (anchor : List String) (autoId : String)
    (q : QueryOptions) (f : String) :
    (∀ (op : WhereFilterOp) (v v' : JSValue), v.isUndef = false →
      (if f = FieldPath.documentId then resolveDocumentId anchor autoId v else .ok v) = .ok v' →
      ((op = .eq ∨ op = .ne) → v' ≠ .null ∧ v' ≠ .nan) →
      whereQ anchor autoId q f op v =
        .ok { q with filters := q.filters ++
          [.fieldFilter ⟨f⟩ (comparisonOperators op) (encodeValue v')] }) ∧
    whereQ anchor autoId q f .eq .null =
      .ok { q with filters := q.filters ++ [.unaryFilter ⟨f⟩ .IS_NULL] } ∧
    whereQ anchor autoId q f .ne .null =
      .ok { q with filters := q.filters ++ [.unaryFilter ⟨f⟩ .IS_NOT_NULL] } ∧
    whereQ anchor autoId q f .eq .nan =
      .ok { q with filters := q.filters ++ [.unaryFilter ⟨f⟩ .IS_NAN] } ∧
    whereQ anchor autoId q f .ne .nan =
      .ok { q with filters := q.filters ++ [.unaryFilter ⟨f⟩ .IS_NOT_NAN] } := by
  refine ⟨?_, ?_, ?_, ?_, ?_⟩
  · intro op v v' hv hres hnot
    unfold whereQ
    rw [hv]
    rw [if_neg (by simp)]
    rw [hres]
    simp only [unaryOperators_eq_none op v' hnot]
  all_goals
    by_cases hf : f = FieldPath.documentId <;>
      simp [whereQ, hf, resolveDocumentId, unaryOperators, JSValue.isUndef]

/-- C8 witness: a concrete non-null comparison compiles to a field
filter with the encoded value, and a concrete `== null` compiles to
`IS_NULL`. -/
theorem where_unary_vs_field_witness :
    whereQ [] "gen" (collectionQuery ["users"]) "age" .gt (.num 25) =
      .ok { collectionQuery ["users"] with
            filters := [.fieldFilter ⟨"age"⟩ .GREATER_THAN (encodeValue (.num 25))] } ∧
    whereQ [] "gen" (collectionQuery ["users"]) "f" .eq .null =
      .ok { collectionQuery ["users"] with filters := [.unaryFilter ⟨"f"⟩ .IS_NULL] } :=
  ⟨(where_unary_vs_field [] "gen" (collectionQuery ["users"]) "age").1 .gt (.num 25) (.num 25)
      rfl (by simp [FieldPath.documentId]) (by rintro (h | h) <;> exact absurd h (by decide)),
    (where_unary_vs_field [] "gen" (collectionQuery ["users"]) "f").2.1⟩

/-- Whether an `Except` computation succeeded. -/
def exceptIsOk {α : Type} : Except String α → Bool
  | .ok _ => true
  | .error _ => false

theorem cursorLoop_ok (anchor : List String) (autoId : String) :
    ∀ l : List (JSValue × Order),
      exceptIsOk (cursorLoop anchor autoId l) = l.all (fun p => !p.1.isUndef)
  | [] => by simp [cursorLoop, exceptIsOk]
  | (v, o) :: rest => by
    have ih := cursorLoop_ok anchor autoId rest
    cases hv : v.isUndef with
    | true => simp [cursorLoop, fieldRefEqDocumentIdString, hv, exceptIsOk]
    | false =>
      cases hr : cursorLoop anchor autoId rest with
      | error e => simp_all [cursorLoop, fieldRefEqDocumentIdString, exceptIsOk]
      | ok vs =>
        rw [hr] at ih
        simp only [cursorLoop, fieldRefEqDocumentIdString, List.all_cons, hv, hr,
          Bool.not_false, Bool.true_and, if_neg (by simp : ¬false = true)]
        simpa [exceptIsOk] using ih

theorem all_zip_left_undef :
    ∀ (xs : List JSValue) (ys : List Order), xs.length ≤ ys.length →
      (xs.zip ys).all (fun p => !p.1.isUndef) = xs.all (fun v => !v.isUndef)
  | [], _, _ => rfl
  | _ :: _, [], h => absurd h (by simp)
  | x :: xs, y :: ys, h => by
    simp only [List.zip_cons_cons, List.all_cons]
    rw [all_zip_left_undef xs ys (by simpa using h)]

/-- C7 (amended): a cursor construction from literal values succeeds iff
no more values are supplied than there are *computed* field orders —
the explicit clauses plus the implicit inequality-derived and
document-id orders — and no value is `undefined`; so one `orderBy` plus
two `startAt` values is accepted (the second value addresses the
implicit document-id order), while three fail.  A cursor built from a
document snapshot missing a required non-document-id field fails. -/
theorem createCursor_error_conditions (anchor : List String) (autoId : String)
    (q : QueryOptions) (b : Bool) :
    (∀ vs : List JSValue,
      exceptIsOk (createCursor anchor autoId q (.values vs) b) =
        (decide (vs.length ≤ (getFieldOrders q).length) && vs.all (fun v => !v.isUndef))) ∧
    (∀ s : SnapshotData,
      (∃ o ∈ getFieldOrders q, o.field.fieldPath ≠ FieldPath.documentId ∧
        snapGet s o.field.fieldPath = none) →
      exceptIsOk (createCursor anchor autoId q (.snapshot s) b) = false) := by
  constructor
  · intro vs
    have hcc : createCursor anchor autoId q (.values vs) b =
        (if vs.length > (getFieldOrders q).length then
          (.error ("Too many cursor values specified. The specified " ++
            "values must match the orderBy() constraints of the query.") : Except String Cursor)
        else
          match cursorLoop anchor autoId (vs.zip (getFieldOrders q)) with
          | .error e => .error e
          | .ok values => .ok { values := values, before := b }) := rfl
    rw [hcc]
    by_cases hlen : vs.length > (getFieldOrders q).length
    · rw [if_pos hlen]
      have : ¬vs.length ≤ (getFieldOrders q).length := by omega
      simp [exceptIsOk, this]
    · have hle : vs.length ≤ (getFieldOrders q).length := by omega
      rw [if_neg hlen]
      have hall := cursorLoop_ok anchor autoId (vs.zip (getFieldOrders q))
      rw [all_zip_left_undef vs (getFieldOrders q) hle] at hall
      cases hr : cursorLoop anchor autoId (vs.zip (getFieldOrders q)) with
      | error e =>
        rw [hr] at hall
        simpa [exceptIsOk, hle] using hall
      | ok values =>
        rw [hr] at hall
        simpa [exceptIsOk, hle] using hall
  · intro s hmiss
    have hext : ∀ orders : List Order,
        (∃ o ∈ orders, o.field.fieldPath ≠ FieldPath.documentId ∧
          snapGet s o.field.fieldPath = none) →
        exceptIsOk (extractFieldValues s orders) = false := by
      intro orders
      induction orders with
      | nil => rintro ⟨o, ho, _⟩; cases ho
      | cons o rest ih =>
        rintro ⟨o', ho', hne, hnone⟩
        rcases List.mem_cons.mp ho' with rfl | hmem
        · simp [extractFieldValues, hne, hnone, exceptIsOk]
        · by_cases hid : o.field.fieldPath = FieldPath.documentId
          · have hrec := ih ⟨o', hmem, hne, hnone⟩
            cases hrest : extractFieldValues s rest with
            | error e => simp [extractFieldValues, hid, hrest, exceptIsOk]
            | ok vs => rw [hrest] at hrec; simp [exceptIsOk] at hrec
          · cases hg : snapGet s o.field.fieldPath with
            | none => simp [extractFieldValues, hid, hg, exceptIsOk]
            | some v =>
              have hrec := ih ⟨o', hmem, hne, hnone⟩
              cases hrest : extractFieldValues s rest with
              | error e => simp [extractFieldValues, hid, hg, hrest, exceptIsOk]
              | ok vs => rw [hrest] at hrec; simp [exceptIsOk] at hrec
    have hfalse := hext (getFieldOrders q) hmiss
    cases he : extractFieldValues s (getFieldOrders q) with
    | ok vs => rw [he] at hfalse; simp [exceptIsOk] at hfalse
    | error e =>
      have hcc : createCursor anchor autoId q (.snapshot s) b =
          (match extractFieldValues s (getFieldOrders q) with
           | .error e => (.error e : Except String Cursor)
           | .ok fieldValues =>
             if fieldValues.length > (getFieldOrders q).length then
               .error ("Too many cursor values specified. The specified " ++
                 "values must match the orderBy() constraints of the query.")
             else
               match cursorLoop anchor autoId (fieldValues.zip (getFieldOrders q)) with
               | .error e => .error e
               | .ok values => .ok { values := values, before := b }) := rfl
      rw [hcc, he]
      rfl

/-- C7 counterexample: the claim says one `orderBy` with two `startAt`
values fails with `InvalidArgument`; the code accepts the two values
(the implicit document-id tiebreaker is counted), producing a cursor. -/
theorem createCursor_two_values_one_orderBy_succeeds :
    createCursor [] "gen"
      { collectionId := "users", filters := [], orderBy := [⟨⟨"name"⟩, some .ASCENDING⟩] }
      (.values [.str "a", .str "b"]) true =
      .ok ⟨[encodeValue (.str "a"), encodeValue (.str "b")], true⟩ := by
  rfl

/-- C7 witness: a concrete snapshot missing the ordered-by field makes
the cursor construction fail, and three literal values against one
`orderBy` fail while two succeed. -/
theorem createCursor_error_conditions_witness :
    exceptIsOk (createCursor [] "gen"
      { collectionId := "users", filters := [], orderBy := [⟨⟨"name"⟩, some .ASCENDING⟩] }
      (.snapshot ⟨["users", "u1"], []⟩) true) = false ∧
    exceptIsOk (createCursor [] "gen"
      { collectionId := "users", filters := [], orderBy := [⟨⟨"name"⟩, some .ASCENDING⟩] }
      (.values [.str "a", .str "b", .str "c"]) true) =
      (decide ((3 : Nat) ≤ 2) && true) :=
  ⟨(createCursor_error_conditions [] "gen"
      { collectionId := "users", filters := [], orderBy := [⟨⟨"name"⟩, some .ASCENDING⟩] } true).2
      ⟨["users", "u1"], []⟩
      ⟨⟨⟨"name"⟩, some .ASCENDING⟩, by decide, by decide, rfl⟩,
    (createCursor_error_conditions [] "gen"
      { collectionId := "users", filters := [], orderBy := [⟨⟨"name"⟩, some .ASCENDING⟩] } true).1
      [.str "a", .str "b", .str "c"]⟩

theorem mapGet_mem : ∀ (ps : List (String × BatchGetResultWire)) (key : String)
    (r : BatchGetResultWire), mapGet ps key = some r → (key, r) ∈ ps
  | [], key, r, h => by simp [mapGet] at h
  | p :: rest, key, r, h => by
    simp only [mapGet] at h
    cases hr : mapGet rest key with
    | some r' =>
      rw [hr] at h
      cases h
      exact List.mem_cons_of_mem p (mapGet_mem rest key r hr)
    | none =>
      rw [hr] at h
      by_cases hk : p.1 = key
      · rw [if_pos hk] at h
        cases h
        rw [← hk]
        simp
      · rw [if_neg hk] at h
        cases h

theorem mapGet_isSome : ∀ (ps : List (String × BatchGetResultWire)) (key : String),
    (∃ p ∈ ps, p.1 = key) → (mapGet ps key).isSome = true
  | [], key, h => by simp at h
  | p :: rest, key, h => by
    simp only [mapGet]
    cases hr : mapGet rest key with
    | some r' => rfl
    | none =>
      obtain ⟨p', hp', hk⟩ := h
      rcases List.mem_cons.mp hp' with rfl | hmem
      · rw [if_pos hk]; rfl
      · have := mapGet_isSome rest key ⟨p', hmem, hk⟩
        rw [hr] at this
        simp at this

theorem batchGetPairs_spec : ∀ (resp : List BatchGetResultWire),
    (∀ r ∈ resp, (batchGetKey r).isSome = true) →
    ∃ ps, batchGetPairs resp = some ps ∧
      (∀ p ∈ ps, p.2 ∈ resp ∧ batchGetKey p.2 = some p.1) ∧
      (∀ r ∈ resp, ∀ k, batchGetKey r = some k → ∃ p ∈ ps, p.1 = k)
  | [], _ => ⟨[], rfl, by simp, by simp⟩
  | r :: rest, h => by
    have hr := h r (List.mem_cons_self r rest)
    cases hk : batchGetKey r with
    | none => rw [hk] at hr; simp at hr
    | some k =>
      obtain ⟨ps, hps, hcorr, hcov⟩ :=
        batchGetPairs_spec rest (fun x hx => h x (List.mem_cons_of_mem r hx))
      refine ⟨(k, r) :: ps, ?_, ?_, ?_⟩
      · simp [batchGetPairs, hk, hps]
      · rintro p hp
        rcases List.mem_cons.mp hp with rfl | hmem
        · exact ⟨List.mem_cons_self r rest, hk⟩
        · obtain ⟨hm, hbk⟩ := hcorr p hmem
          exact ⟨List.mem_cons_of_mem r hm, hbk⟩
      · rintro x hx k' hk'
        rcases List.mem_cons.mp hx with rfl | hmem
        · rw [hk] at hk'
          injection hk' with hkk
          subst hkk
          exact ⟨(k, x), List.mem_cons_self _ _, rfl⟩
        · obtain ⟨p, hp, hpk⟩ := hcov x hmem k' hk'
          exact ⟨p, List.mem_cons_of_mem _ hp, hpk⟩

theorem batchGetWalk_eq (basePath : String) (response : List BatchGetResultWire)
    (res : DocRef → BatchGetResultWire) (ps : List (String × BatchGetResultWire))
    (hcorr : ∀ p ∈ ps, p.2 ∈ response ∧ batchGetKey p.2 = some p.1)
    (hcov : ∀ r ∈ response, ∀ k, batchGetKey r = some k → ∃ p ∈ ps, p.1 = k) :
    ∀ refs : List DocRef,
      (∀ ref ∈ refs, res ref ∈ response ∧
        batchGetKey (res ref) = some (qualifiedPath basePath ref)) →
      (∀ r ∈ response, ∀ ref ∈ refs,
        batchGetKey r = some (qualifiedPath basePath ref) → r = res ref) →
      batchGetWalk basePath ps refs =
        some (refs.map (fun ref => mkBatchSnapshot ref (res ref)))
  | [], _, _ => rfl
  | ref :: rest, hres, huniq => by
    obtain ⟨hmem, hkey⟩ := hres ref (List.mem_cons_self ref rest)
    obtain ⟨p, hp, hpk⟩ := hcov (res ref) hmem _ hkey
    have hsome := mapGet_isSome ps (qualifiedPath basePath ref) ⟨p, hp, hpk⟩
    cases hmg : mapGet ps (qualifiedPath basePath ref) with
    | none => rw [hmg] at hsome; simp at hsome
    | some r' =>
      obtain ⟨hr'resp, hr'key⟩ := hcorr _ (mapGet_mem ps _ r' hmg)
      have heq : r' = res ref :=
        huniq r' hr'resp ref (List.mem_cons_self _ _) hr'key
      subst heq
      unfold batchGetWalk
      rw [hmg,
        batchGetWalk_eq basePath response res ps hcorr hcov rest
          (fun x hx => hres x (List.mem_cons_of_mem _ hx))
          (fun r hr x hx hk => huniq r hr x (List.mem_cons_of_mem _ hx) hk)]
      rfl

/-- C5: for every requested reference list and every server response
that contains one keyed result per requested document — in whatever
order — `batchGet` re-maps the results to the caller's order: the
output is exactly one snapshot per requested reference, the `i`-th
built from the `i`-th reference and that reference's own server
result. -/
theorem batchGet_restores_request_order (basePath : String)
    (refs : List DocRef) (response : List BatchGetResultWire)
    (res : DocRef → BatchGetResultWire)
    (hkeys : ∀ r ∈ response, (batchGetKey r).isSome = true)
    (hres : ∀ ref ∈ refs, res ref ∈ response ∧
      batchGetKey (res ref) = some (qualifiedPath basePath ref))
    (huniq : ∀ r ∈ response, ∀ ref ∈ refs,
      batchGetKey r = some (qualifiedPath basePath ref) → r = res ref) :
    batchGetResults basePath refs response =
      some (refs.map (fun ref => mkBatchSnapshot ref (res ref))) := by
  obtain ⟨ps, hps, hcorr, hcov⟩ := batchGetPairs_spec response hkeys
  unfold batchGetResults
  rw [hps]
  exact batchGetWalk_eq basePath response res ps hcorr hcov refs hres huniq

/-- C5 witness: two requested documents whose results come back in the
opposite order are re-mapped into request order. -/
theorem batchGet_restores_request_order_witness :
    batchGetResults "p" [⟨["users", "a"]⟩, ⟨["users", "b"]⟩]
      [⟨none, some ⟨"p/users/b", []⟩, "t2"⟩, ⟨none, some ⟨"p/users/a", []⟩, "t1"⟩] =
      some [mkBatchSnapshot ⟨["users", "a"]⟩ ⟨none, some ⟨"p/users/a", []⟩, "t1"⟩,
            mkBatchSnapshot ⟨["users", "b"]⟩ ⟨none, some ⟨"p/users/b", []⟩, "t2"⟩] := by
  have h := batchGet_restores_request_order "p"
    [⟨["users", "a"]⟩, ⟨["users", "b"]⟩]
    [⟨none, some ⟨"p/users/b", []⟩, "t2"⟩, ⟨none, some ⟨"p/users/a", []⟩, "t1"⟩]
    (fun ref => if ref.segments = ["users", "a"]
      then ⟨none, some ⟨"p/users/a", []⟩, "t1"⟩
      else ⟨none, some ⟨"p/users/b", []⟩, "t2"⟩)
    (by decide)
    (by
      intro ref href
      cases href with
      | head => exact ⟨by simp, by decide⟩
      | tail _ h2 =>
        cases h2 with
        | head => exact ⟨by simp, by decide⟩
        | tail _ h3 => cases h3)
    (by
      intro r hr ref href hk
      cases hr with
      | head =>
        cases href with
        | head => exact absurd hk (by decide)
        | tail _ h2 =>
          cases h2 with
          | head => rfl
          | tail _ h3 => cases h3
      | tail _ h2 =>
        cases h2 with
        | head =>
          cases href with
          | head => rfl
          | tail _ h3 =>
            cases h3 with
            | head => exact absurd hk (by decide)
            | tail _ h4 => cases h4
        | tail _ h3 => cases h3)
  exact h

end WF
